import Mathlib

/-
Verification of the yaml_config composition facade (src/lib/yaml_config/config.py)
against its specification.

The facade in config.py (YamlConfigMixin and the three root classes YamlConfig,
CategoryYamlConfig, ListYamlConfig) is embedded directly from the source.  The
Element hierarchy (KeyedElem, CategoryElem, ListElem, the scalar leaf elements)
lives in the repository module `elements`, which is not part of the provided
source fragment; those operations (validate, yaml_events/render, find, the name
check, and the default setter) are modelled from the specification, as marked in
each definition.
-/

namespace YC

/-- Scalar values of the generic document model: null, strings, integers, booleans. -/
inductive Scalar where
  | null
  | str (s : String)
  | int (n : Int)
  | bool (b : Bool)
deriving DecidableEq, Repr

/-- Generic document nodes: scalars, mappings and sequences, as produced by the
black-box parser and consumed by the emitter.  Value trees share this shape. -/
inductive Node where
  | scalar (v : Scalar)
  | mapping (entries : List (String × Node))
  | sequence (items : List Node)
deriving Repr

/-- Error taxonomy of the system: ValueError, RequiredError, KeyError from
validation, plus format and stream errors from the document model boundary. -/
inductive Err where
  | valueError (msg : String)
  | requiredError (msg : String)
  | keyError (msg : String)
  | formatError (msg : String)
  | streamError (msg : String)
deriving DecidableEq, Repr

/-- Constraint kinds of the scalar leaf elements: plain string, integer with an
optional range, boolean. -/
inductive LeafType where
  | str
  | int (vmin vmax : Option Int)
  | bool
deriving DecidableEq, Repr

/-- Schema elements: scalar leaves (with name, constraint, required flag,
default and choices), strict keyed mappings, open categories with one shared
sub-element template, and lists with one shared sub-element template. -/
inductive Elem where
  | leaf (name : String) (lt : LeafType) (required : Bool)
      (dflt : Option Scalar) (choices : List Scalar)
  | keyed (name : String) (elems : List Elem)
  | cat (name : String) (base : Elem)
  | lst (name : String) (base : Elem)
deriving Repr

/-- The name attribute of an element. -/
def Elem.name : Elem → String
  | .leaf n _ _ _ _ => n
  | .keyed n _ => n
  | .cat n _ => n
  | .lst n _ => n

/-- Membership test against the optional choice list; an empty list means
unconstrained. -/
def inChoices (cs : List Scalar) (v : Scalar) : Bool :=
  cs.isEmpty || cs.contains v

/-- Range check for integer leaves. -/
def rangeOk (lo hi : Option Int) (n : Int) : Bool :=
  (match lo with | none => true | some l => decide (l ≤ n)) &&
  (match hi with | none => true | some h => decide (n ≤ h))

/-- Modelled from the spec: a scalar leaf applies its primitive type check
(string, integer with range, boolean) and then the choice membership check,
failing with a ValueError naming the violated constraint. -/
def checkLeaf : LeafType → List Scalar → Scalar → Except Err Scalar
  | .str, cs, .str s =>
      if inChoices cs (.str s) then .ok (.str s)
      else .error (.valueError "value is not an allowed choice")
  | .int lo hi, cs, .int n =>
      if rangeOk lo hi n then
        if inChoices cs (.int n) then .ok (.int n)
        else .error (.valueError "value is not an allowed choice")
      else .error (.valueError "value out of range")
  | .bool, cs, .bool b =>
      if inChoices cs (.bool b) then .ok (.bool b)
      else .error (.valueError "value is not an allowed choice")
  | _, _, _ => .error (.valueError "value has the wrong scalar type")

/-- First entry of a mapping with the given key, if any. -/
def lookupNode (k : String) : List (String × Node) → Option Node
  | [] => none
  | (k', n) :: rest => if k' = k then some n else lookupNode k rest

/-- First element of a list with the given name, if any. -/
def lookupElem (k : String) : List Elem → Option Elem
  | [] => none
  | e :: rest => if e.name = k then some e else lookupElem k rest

/-- An explicit null node counts as an absent value. -/
def stripNull : Option Node → Option Node
  | some (.scalar .null) => none
  | inp => inp

/-- Modelled from the spec: container elements wrap a child error by prefixing
the current path segment, so errors carry a full dotted path. -/
def wrapErr (seg : String) : Err → Err
  | .valueError m => .valueError (seg ++ ": " ++ m)
  | .requiredError m => .requiredError (seg ++ ": " ++ m)
  | .keyError m => .keyError (seg ++ ": " ++ m)
  | .formatError m => .formatError m
  | .streamError m => .streamError m

/-- Apply the path-prefix wrapping to the error branch of a result. -/
def wrapPath (seg : String) : Except Err Node → Except Err Node
  | .ok v => .ok v
  | .error e => .error (wrapErr seg e)

/-- True when the input mapping holds a key that is not a declared name. -/
def unknownKey (declared : List String) (entries : List (String × Node)) : Bool :=
  entries.any (fun kn => !declared.contains kn.1)

/-- Lift a scalar result into a node result. -/
def exceptScalar : Except Err Scalar → Except Err Node
  | .ok s => .ok (.scalar s)
  | .error e => .error e

/-- Lift a mapping-entry-list result into a node result. -/
def exceptMapping : Except Err (List (String × Node)) → Except Err Node
  | .ok res => .ok (.mapping res)
  | .error e => .error e

/-- Lift an item-list result into a node result. -/
def exceptSequence : Except Err (List Node) → Except Err Node
  | .ok res => .ok (.sequence res)
  | .error e => .error e

/-- Prepend a named entry to an entry-list result, propagating the first
error. -/
def exceptCons (nm : String) :
    Except Err Node → Except Err (List (String × Node)) →
      Except Err (List (String × Node))
  | .error e, _ => .error e
  | .ok _, .error e => .error e
  | .ok v, .ok vs => .ok ((nm, v) :: vs)

/-- Prepend an item to an item-list result, propagating the first error. -/
def exceptConsItem : Except Err Node → Except Err (List Node) → Except Err (List Node)
  | .error e, _ => .error e
  | .ok _, .error e => .error e
  | .ok v, .ok vs => .ok (v :: vs)

/-- Modelled from the spec: leaf validate on an already-null-stripped input.
A present scalar is checked against the constraints; an absent input takes the
default when one is set, fails with RequiredError when required with no
default, and yields null otherwise. -/
def validateLeaf (lt : LeafType) (req : Bool) (d : Option Scalar)
    (cs : List Scalar) : Option Node → Except Err Node
  | some (.scalar s) => exceptScalar (checkLeaf lt cs s)
  | some _ => .error (.valueError "expected a scalar value")
  | none =>
    match d with
    | some dv => .ok (.scalar dv)
    | none =>
      if req then .error (.requiredError "missing required value")
      else .ok (.scalar .null)

mutual

/-- Modelled from the spec: Element validate.  Strips an explicit null to
absent, then dispatches on the element kind. -/
def validateElem (e : Elem) (inp : Option Node) : Except Err Node :=
  validateStripped e (stripNull inp)
termination_by (sizeOf e, 1)

/-- Validate dispatch after null stripping.  A keyed element requires a mapping
with only declared keys and validates each declared sub-element against its
entry; an absent keyed input is treated as an empty mapping so that sub-element
defaults surface.  A category validates every entry of the input mapping
against its shared template (absent means no entries); a list validates every
item of the input sequence against its shared template. -/
def validateStripped : Elem → Option Node → Except Err Node
  | .leaf _ lt req d cs, sinp => validateLeaf lt req d cs sinp
  | .keyed _ elems, none => exceptMapping (validateSubs elems [])
  | .keyed _ elems, some (.mapping entries) =>
    if unknownKey (elems.map Elem.name) entries then
      .error (.keyError "unknown key in mapping")
    else exceptMapping (validateSubs elems entries)
  | .keyed _ _, some _ => .error (.valueError "expected a mapping")
  | .cat _ _, none => .ok (.mapping [])
  | .cat _ base, some (.mapping entries) => exceptMapping (validateCat base entries)
  | .cat _ _, some _ => .error (.valueError "expected a mapping")
  | .lst _ _, none => .ok (.sequence [])
  | .lst _ base, some (.sequence items) => exceptSequence (validateLst base 0 items)
  | .lst _ _, some _ => .error (.valueError "expected a sequence")
termination_by e _ => (sizeOf e, 0)

/-- Validate each declared sub-element of a keyed element against the input
mapping, assembling the results in declaration order and wrapping child errors
with the child name. -/
def validateSubs : List Elem → List (String × Node) → Except Err (List (String × Node))
  | [], _ => .ok []
  | e :: rest, entries =>
    exceptCons e.name (wrapPath e.name (validateElem e (lookupNode e.name entries)))
      (validateSubs rest entries)
termination_by es _ => (sizeOf es, 0)

/-- Validate every entry of a category input mapping against the shared
template, wrapping child errors with the entry key. -/
def validateCat : Elem → List (String × Node) → Except Err (List (String × Node))
  | _, [] => .ok []
  | base, (k, n) :: rest =>
    exceptCons k (wrapPath k (validateElem base (some n))) (validateCat base rest)
termination_by base entries => (sizeOf base, 1 + sizeOf entries)

/-- Validate every item of a list input sequence against the shared template,
in positional order, wrapping child errors with the position. -/
def validateLst : Elem → Nat → List Node → Except Err (List Node)
  | _, _, [] => .ok []
  | base, idx, n :: rest =>
    exceptConsItem (wrapPath (Nat.repr idx) (validateElem base (some n)))
      (validateLst base (idx + 1) rest)
termination_by base _ items => (sizeOf base, 1 + sizeOf items)

end

/-- Mapping entries of an optional node, empty when the node is not a mapping. -/
def entriesOf : Option Node → List (String × Node)
  | some (.mapping es) => es
  | _ => []

/-- Leaf render: embed the given value, else the default, else a null
placeholder. -/
def renderLeaf (d : Option Scalar) : Option Node → Node
  | some nd => nd
  | none =>
    match d with
    | some dv => .scalar dv
    | none => .scalar .null

mutual

/-- Modelled from the spec: Element render, restricted to the data content of
the produced generic node (help text and choice lists attach as side
documentation, never as data, so they have no representation in the node
model).  A leaf embeds the given value, else its default, else a null
placeholder.  A keyed element renders each declared sub-element in declaration
order against the corresponding entry of the value.  A category or list with a
value renders each actual entry or item through the shared template; with no
value it renders a single placeholder entry or item. -/
def render : Elem → Option Node → Node
  | .leaf _ _ _ d _, ov => renderLeaf d ov
  | .keyed _ elems, ov => .mapping (renderSubs elems (entriesOf ov))
  | .cat _ base, some (.mapping entries) => .mapping (renderCat base entries)
  | .cat _ base, _ => .mapping [("example", render base none)]
  | .lst _ base, some (.sequence items) => .sequence (renderLst base items)
  | .lst _ base, _ => .sequence [render base none]
termination_by e _ => (sizeOf e, 1)

/-- Render each declared sub-element of a keyed element against the value
mapping. -/
def renderSubs : List Elem → List (String × Node) → List (String × Node)
  | [], _ => []
  | e :: rest, vmap =>
      (e.name, render e (lookupNode e.name vmap)) :: renderSubs rest vmap
termination_by es _ => (sizeOf es, 0)

/-- Render each actual entry of a category value through the shared template. -/
def renderCat : Elem → List (String × Node) → List (String × Node)
  | _, [] => []
  | base, (k, n) :: rest => (k, render base (some n)) :: renderCat base rest
termination_by base entries => (sizeOf base, 2 + sizeOf entries)

/-- Render each item of a list value through the shared template. -/
def renderLst : Elem → List Node → List Node
  | _, [] => []
  | base, n :: rest => render base (some n) :: renderLst base rest
termination_by base items => (sizeOf base, 2 + sizeOf items)

end

/-- True when the default of a leaf, if set, passes the constraints of that
leaf. -/
def leafDefaultOk (lt : LeafType) (cs : List Scalar) : Option Scalar → Bool
  | none => true
  | some d => match checkLeaf lt cs d with | .ok _ => true | .error _ => false

/-- True when no name repeats. -/
def nodupNames : List String → Bool
  | [] => true
  | n :: rest => !rest.contains n && nodupNames rest

mutual

/-- Schema wellformedness: leaf defaults satisfy their own constraints, and
sibling names of a keyed element are distinct (the spec invariant that names
are unique among siblings). -/
def wfElem : Elem → Bool
  | .leaf _ lt _ d cs => leafDefaultOk lt cs d
  | .keyed _ elems => nodupNames (elems.map Elem.name) && wfList elems
  | .cat _ base => wfElem base
  | .lst _ base => wfElem base
termination_by e => (sizeOf e, 0)

/-- Wellformedness of every element of a list. -/
def wfList : List Elem → Bool
  | [] => true
  | e :: rest => wfElem e && wfList rest
termination_by es => (sizeOf es, 0)

end

mutual

/-- True when every field of the schema is optional (no required leaf). -/
def allOptional : Elem → Bool
  | .leaf _ _ req _ _ => !req
  | .keyed _ elems => allOptionalList elems
  | .cat _ base => allOptional base
  | .lst _ base => allOptional base
termination_by e => (sizeOf e, 0)

/-- allOptional over a list of elements. -/
def allOptionalList : List Elem → Bool
  | [] => true
  | e :: rest => allOptional e && allOptionalList rest
termination_by es => (sizeOf es, 0)

end

/-- Modelled from the spec: Element find.  Resolves a dotted path, where each
segment names a key for keyed elements, is ignored (wildcarded) for list and
category elements, meaning the shared sub-element template, and fails with
KeyError when a segment does not correspond to a declared key. -/
def findSegs : Elem → List String → Except Err Elem
  | e, [] => .ok e
  | .keyed _ elems, seg :: rest =>
    match lookupElem seg elems with
    | some e => findSegs e rest
    | none => .error (.keyError seg)
  | .cat _ base, _ :: rest => findSegs base rest
  | .lst _ base, _ :: rest => findSegs base rest
  | .leaf _ _ _ _ _, seg :: _ => .error (.keyError seg)

/-- Split a dotted key into its segments. -/
def splitKey (k : String) : List String := k.splitOn "."

/-- Modelled from the spec: the constraints of the resolved element applied to
a candidate default value.  A scalar passes the constraints of a leaf exactly
when checkLeaf accepts it; a scalar never conforms to a container element, whose
input must be a mapping or a sequence. -/
def checkAgainst : Elem → Scalar → Except Err Scalar
  | .leaf _ lt _ _ cs, v => checkLeaf lt cs v
  | _, _ => .error (.valueError "a scalar does not conform to a container element")

mutual

/-- Rebuild the schema with the default of the element at the given path set;
identity on elements the path does not reach. -/
def setDefaultAt : Elem → List String → Scalar → Elem
  | .leaf n lt req _ cs, [], v => .leaf n lt req (some v) cs
  | .keyed n elems, seg :: rest, v => .keyed n (setDefaultList elems seg rest v)
  | .cat n base, _ :: rest, v => .cat n (setDefaultAt base rest v)
  | .lst n base, _ :: rest, v => .lst n (setDefaultAt base rest v)
  | e, _, _ => e
termination_by _ segs _ => (segs.length + 1, 0)

/-- Update the first element whose name matches the current segment. -/
def setDefaultList : List Elem → String → List String → Scalar → List Elem
  | [], _, _, _ => []
  | e :: rest, seg, segs, v =>
    if e.name = seg then setDefaultAt e segs v :: rest
    else e :: setDefaultList rest seg segs v
termination_by es _ segs _ => (segs.length + 1, es.length)

end

/-- Modelled from the spec: set_default on a root element.  The source facade
(YamlConfigMixin.set_default) resolves the dotted key via find and assigns the
value to the `default` attribute of the resolved element; the validation of the
assigned value against the constraints of that element belongs to the element
hierarchy outside this fragment and is modelled here per the spec, which states
that the value is validated and assigned only if valid, failing with ValueError
otherwise. -/
def setDefaultSegs (root : Elem) (segs : List String) (v : Scalar) : Except Err Elem :=
  match findSegs root segs with
  | .error e => .error e
  | .ok e =>
    match checkAgainst e v with
    | .ok _ => .ok (setDefaultAt root segs v)
    | .error er => .error er

/-- The facade set_default entry point, taking a dotted key string. -/
def set_default (root : Elem) (dottedKey : String) (v : Scalar) : Except Err Elem :=
  setDefaultSegs root (splitKey dottedKey) v

/-- Events of the document model emitter; only the four stream and document
markers are distinguished from node events here. -/
inductive Event where
  | streamStart
  | documentStart
  | documentEnd
  | streamEnd
  | scalar (v : Scalar)
  | mappingStart
  | mappingEnd
  | sequenceStart
  | sequenceEnd
deriving DecidableEq, Repr

/-- The full event sequence a dump call assembles, embedded from
YamlConfigMixin.dump: a stream-start and document-start marker, the events of
the root element seeded with the given values, then a document-end and
stream-end marker. -/
def dumpEvents (yamlEvents : Option Node → Bool → List Event)
    (values : Option Node) (showChoices : Bool) : List Event :=
  [Event.streamStart, Event.documentStart]
    ++ yamlEvents values showChoices
    ++ [Event.documentEnd, Event.streamEnd]

/-- Embedded from YamlConfigMixin.dump: assemble the event list and hand it to
the emitter of the document model in a single call. -/
def dump {Out : Type} (emit : List Event → String → Out)
    (yamlEvents : Option Node → Bool → List Event)
    (outfile : String) (values : Option Node) (showChoices : Bool) : Out :=
  emit (dumpEvents yamlEvents values showChoices) outfile

/-- Embedded from YamlConfigMixin.load: parse the raw input stream through the
document model, then return exactly the result of validate on the parsed tree;
errors of either step propagate unchanged. -/
def load (parse : String → Except Err (Option Node))
    (validate : Option Node → Except Err Node) (infile : String) : Except Err Node :=
  match parse infile with
  | .error e => .error e
  | .ok raw => validate raw

/-- Modelled from the spec: the normal name validation of an element, which
accepts ordinary identifier names; the root sentinel contains angle brackets
and is rejected by it (the source comment notes the checking in the element
constructor would reject the sentinel if set normally). -/
def validName (s : String) : Bool :=
  s.length > 0 && s.toList.all (fun c => c.isAlphanum || c == '_')

/-- A leaf with its default replaced; identity on containers. -/
def Elem.withDefault : Elem → Scalar → Elem
  | .leaf n lt req _ cs, v => .leaf n lt req (some v) cs
  | e, _ => e

/-- Resolve a dotted path inside a value tree. -/
def lookupPath : Node → List String → Option Node
  | n, [] => some n
  | .mapping es, k :: rest =>
    match lookupNode k es with
    | some n => lookupPath n rest
    | none => none
  | _, _ :: _ => none

/-- The state of a YamlConfig instance after __init__, embedded from the
source: the keyed root holds the ELEMENTS class variable and the HEADER help
text, and its name is then assigned the root sentinel directly, bypassing the
name checking of the element constructor. -/
structure YamlConfig where
  elements : List Elem
  name : String
  help_text : String
deriving Repr

/-- Embedded from YamlConfig.__init__. -/
def YamlConfig.init (ELEMENTS : List Elem) (HEADER : String) : YamlConfig :=
  { elements := ELEMENTS, name := "<root>", help_text := HEADER }

/-- Default of the ELEMENTS class variable on YamlConfig. -/
def YamlConfig.ELEMENTS : List Elem := []

/-- Default of the HEADER class variable on YamlConfigMixin. -/
def YamlConfig.HEADER : String := ""

/-- The keyed root element a YamlConfig instance embodies. -/
def YamlConfig.toElem (c : YamlConfig) : Elem := .keyed c.name c.elements

/-- The state of a CategoryYamlConfig instance after __init__, embedded from
the source: the category root holds the BASE class variable as sub_elem and the
HEADER help text, with the name assigned the root sentinel directly. -/
structure CategoryYamlConfig where
  sub_elem : Option Elem
  name : String
  help_text : String
deriving Repr

/-- Embedded from CategoryYamlConfig.__init__. -/
def CategoryYamlConfig.init (BASE : Option Elem) (HEADER : String) : CategoryYamlConfig :=
  { sub_elem := BASE, name := "<root>", help_text := HEADER }

/-- Default of the BASE class variable on CategoryYamlConfig. -/
def CategoryYamlConfig.BASE : Option Elem := none

/-- The state of a ListYamlConfig instance after __init__, embedded from the
source. -/
structure ListYamlConfig where
  sub_elem : Option Elem
  name : String
  help_text : String
deriving Repr

/-- Embedded from ListYamlConfig.__init__. -/
def ListYamlConfig.init (BASE : Option Elem) (HEADER : String) : ListYamlConfig :=
  { sub_elem := BASE, name := "<root>", help_text := HEADER }

/-- Default of the BASE class variable on ListYamlConfig. -/
def ListYamlConfig.BASE : Option Elem := none

/-! Helper lemmas. -/

theorem wrapPath_ok {seg : String} {r : Except Err Node} {v : Node} :
    wrapPath seg r = .ok v ↔ r = .ok v := by
  cases r <;> simp [wrapPath]

theorem setDefaultAt_name (e : Elem) (segs : List String) (v : Scalar) :
    (setDefaultAt e segs v).name = e.name := by
  cases e <;> cases segs <;> simp [setDefaultAt, Elem.name]

theorem checkLeaf_error_valueError {lt : LeafType} {cs : List Scalar}
    {v : Scalar} {er : Err} (h : checkLeaf lt cs v = .error er) :
    ∃ m, er = .valueError m := by
  unfold checkLeaf at h
  repeat' split at h
  all_goals cases h <;> exact ⟨_, rfl⟩

theorem checkAgainst_error_valueError {e : Elem} {v : Scalar} {er : Err}
    (h : checkAgainst e v = .error er) : ∃ m, er = .valueError m := by
  cases e with
  | leaf n lt req d cs => exact checkLeaf_error_valueError h
  | keyed n elems => cases h; exact ⟨_, rfl⟩
  | cat n base => cases h; exact ⟨_, rfl⟩
  | lst n base => cases h; exact ⟨_, rfl⟩

theorem setDefaultSegs_ok {root : Elem} {segs : List String} {v : Scalar}
    {root' : Elem} (h : setDefaultSegs root segs v = .ok root') :
    root' = setDefaultAt root segs v := by
  unfold setDefaultSegs at h
  cases hf : findSegs root segs with
  | error e => simp [hf] at h
  | ok e =>
    simp only [hf] at h
    cases hc : checkAgainst e v with
    | error er => simp [hc] at h
    | ok s =>
      simp only [hc] at h
      exact (Except.ok.injEq _ _ ▸ h).symm

/-! Claim theorems. -/

/-- Claim C2: for every parser and every root validate, load on an input stream
whose parse succeeds with raw tree n returns exactly validate n: load is the
composition of the document model parser with the root element validate, with
no other transformation in between. -/
theorem load_parses_then_validates
    (parse : String → Except Err (Option Node))
    (validate : Option Node → Except Err Node)
    (s : String) (n : Option Node) (h : parse s = .ok n) :
    load parse validate s = validate n := by
  unfold load
  rw [h]

theorem load_parses_then_validates_witness :
    load (fun _ => .ok (some (Node.scalar (Scalar.str "x"))))
        (fun raw => match raw with
          | some n => .ok n
          | none => .error (.valueError "empty")) "doc"
      = .ok (Node.scalar (Scalar.str "x")) :=
  load_parses_then_validates _ _ "doc" (some (Node.scalar (Scalar.str "x"))) rfl

/-- Claim C3: load propagates stream-read and format-parse failures of the
parser, and every failure of validate (ValueError, RequiredError, KeyError or
any other), unchanged to the caller; the facade catches, wraps, rewrites or
swallows nothing. -/
theorem load_propagates_errors
    (parse : String → Except Err (Option Node))
    (validate : Option Node → Except Err Node) (s : String) :
    (∀ e, parse s = .error e → load parse validate s = .error e) ∧
    (∀ n e, parse s = .ok n → validate n = .error e →
      load parse validate s = .error e) := by
  constructor
  · intro e h
    unfold load
    rw [h]
  · intro n e hp hv
    unfold load
    rw [hp]
    exact hv

theorem load_propagates_errors_witness :
    load (fun _ => .error (Err.streamError "read failed"))
        (fun _ => .ok (Node.scalar Scalar.null)) "doc"
      = .error (Err.streamError "read failed") ∧
    load (fun _ => .ok none)
        (fun _ => .error (Err.requiredError "missing")) "doc"
      = .error (Err.requiredError "missing") :=
  ⟨(load_propagates_errors _ _ "doc").1 (Err.streamError "read failed") rfl,
   (load_propagates_errors _ _ "doc").2 none (Err.requiredError "missing") rfl rfl⟩

/-- Claim C4: dump produces exactly the event sequence start-of-stream,
start-of-document, the rendered events of the root element seeded with the
given values, end-of-document, end-of-stream, in that order, and hands the full
sequence to the emitter of the document model in one call.  The theorem holds
for every root event renderer, every value tree and both settings of the
show-choices flag. -/
theorem dump_event_bracketing {Out : Type} (emit : List Event → String → Out)
    (yamlEvents : Option Node → Bool → List Event)
    (outfile : String) (values : Option Node) (showChoices : Bool) :
    dump emit yamlEvents outfile values showChoices =
      emit ([Event.streamStart, Event.documentStart]
        ++ yamlEvents values showChoices
        ++ [Event.documentEnd, Event.streamEnd]) outfile := rfl

/-- Claim C9: when find fails on the dotted key with a KeyError (or any error),
set_default propagates that error and performs no assignment: the schema update
happens only after find returns successfully, so an error leaves every default
of the schema untouched (the operation yields no updated schema at all). -/
theorem set_default_bad_path_atomic (root : Elem) (segs : List String)
    (v : Scalar) (e : Err) (h : findSegs root segs = .error e) :
    setDefaultSegs root segs v = .error e := by
  unfold setDefaultSegs
  rw [h]

theorem set_default_bad_path_atomic_witness :
    setDefaultSegs (Elem.keyed "<root>" [Elem.leaf "age" (.int (some 1) none) false none []])
        ["zzz"] (Scalar.int 4)
      = .error (Err.keyError "zzz") :=
  set_default_bad_path_atomic _ ["zzz"] (Scalar.int 4) (Err.keyError "zzz") rfl

/-- Claim C10: a CategoryYamlConfig or ListYamlConfig subclass that does not
override BASE constructs its root with sub_elem none, with no construction-time
guard rejecting the missing template (the constructor is total), and a
YamlConfig subclass that does not override ELEMENTS constructs a keyed root
with an empty element list. -/
theorem default_class_variable_construction :
    (CategoryYamlConfig.init CategoryYamlConfig.BASE YamlConfig.HEADER).sub_elem = none ∧
    (ListYamlConfig.init ListYamlConfig.BASE YamlConfig.HEADER).sub_elem = none ∧
    (YamlConfig.init YamlConfig.ELEMENTS YamlConfig.HEADER).elements = [] :=
  ⟨rfl, rfl, rfl⟩

/-- Claim C5: each of the three config root variants leaves construction with
name equal to the sentinel root marker, the sentinel is rejected by the normal
element name validation (the direct attribute assignment in __init__ bypasses
that check), and no operation of the facade renames the root afterwards:
set_default, the only schema mutation the facade exposes, preserves the name of
every element it returns (load and dump never change the schema at all). -/
theorem root_name_sentinel (es : List Elem) (b : Option Elem) (hdr : String) :
    (YamlConfig.init es hdr).name = "<root>" ∧
    (CategoryYamlConfig.init b hdr).name = "<root>" ∧
    (ListYamlConfig.init b hdr).name = "<root>" ∧
    validName "<root>" = false ∧
    (∀ (root : Elem) (segs : List String) (v : Scalar) (root' : Elem),
      setDefaultSegs root segs v = .ok root' → root'.name = root.name) := by
  refine ⟨rfl, rfl, rfl, by decide, ?_⟩
  intro root segs v root' h
  rw [setDefaultSegs_ok h]
  exact setDefaultAt_name root segs v

theorem lookupElem_setDefaultList {elems : List Elem} {seg : String} {e1 : Elem}
    (segs : List String) (v : Scalar) (h : lookupElem seg elems = some e1) :
    lookupElem seg (setDefaultList elems seg segs v) = some (setDefaultAt e1 segs v) := by
  induction elems with
  | nil => simp [lookupElem] at h
  | cons a rest ih =>
    by_cases ha : a.name = seg
    · simp only [lookupElem, ha, if_pos] at h
      cases h
      simp [setDefaultList, ha, lookupElem, setDefaultAt_name]
    · simp only [lookupElem, ha, if_neg, not_false_iff] at h
      simp [setDefaultList, ha, lookupElem, ih h]

theorem findSegs_setDefaultAt {root : Elem} {segs : List String} {e : Elem}
    (v : Scalar) (h : findSegs root segs = .ok e) :
    findSegs (setDefaultAt root segs v) segs = .ok (e.withDefault v) := by
  induction segs generalizing root with
  | nil =>
    cases root <;>
      (simp only [findSegs, Except.ok.injEq] at h
       subst h
       simp [setDefaultAt, findSegs, Elem.withDefault])
  | cons seg rest ih =>
    cases root with
    | leaf n lt req d cs => simp [findSegs] at h
    | keyed n elems =>
      cases hl : lookupElem seg elems with
      | none => simp [findSegs, hl] at h
      | some e1 =>
        simp only [findSegs, hl] at h
        simp only [setDefaultAt, findSegs, lookupElem_setDefaultList rest v hl]
        exact ih h
    | cat n base =>
      simp only [findSegs] at h
      simp only [setDefaultAt, findSegs]
      exact ih h
    | lst n base =>
      simp only [findSegs] at h
      simp only [setDefaultAt, findSegs]
      exact ih h

/-- Claim C1: set_default resolves the dotted key to an element e, validates
the value against the constraints of e, and assigns it as the default of e only
when validation succeeds.  On failure a ValueError is the result and no default
changes (no updated schema is produced); on success the returned schema differs
from the original exactly by the update, and resolving the same key in it
yields e with its default set to the value. -/
theorem set_default_validates_then_assigns (root : Elem) (segs : List String)
    (v : Scalar) (e : Elem) (hf : findSegs root segs = .ok e) :
    (∀ er, checkAgainst e v = .error er →
      ∃ m, setDefaultSegs root segs v = .error (.valueError m)) ∧
    (∀ s, checkAgainst e v = .ok s →
      setDefaultSegs root segs v = .ok (setDefaultAt root segs v) ∧
      findSegs (setDefaultAt root segs v) segs = .ok (e.withDefault v)) := by
  constructor
  · intro er hc
    obtain ⟨m, rfl⟩ := checkAgainst_error_valueError hc
    exact ⟨m, by simp [setDefaultSegs, hf, hc]⟩
  · intro s hc
    exact ⟨by simp [setDefaultSegs, hf, hc], findSegs_setDefaultAt v hf⟩

theorem set_default_validates_then_assigns_witness :
    (∃ m, setDefaultSegs
        (Elem.keyed "<root>" [Elem.leaf "age" (.int (some 1) none) false none []])
        ["age"] (Scalar.int 0) = .error (.valueError m)) ∧
    (setDefaultSegs
        (Elem.keyed "<root>" [Elem.leaf "age" (.int (some 1) none) false none []])
        ["age"] (Scalar.int 5)
      = .ok (setDefaultAt
          (Elem.keyed "<root>" [Elem.leaf "age" (.int (some 1) none) false none []])
          ["age"] (Scalar.int 5)) ∧
     findSegs (setDefaultAt
          (Elem.keyed "<root>" [Elem.leaf "age" (.int (some 1) none) false none []])
          ["age"] (Scalar.int 5)) ["age"]
      = .ok (Elem.withDefault (Elem.leaf "age" (.int (some 1) none) false none [])
          (Scalar.int 5))) :=
  ⟨(set_default_validates_then_assigns
      (Elem.keyed "<root>" [Elem.leaf "age" (.int (some 1) none) false none []])
      ["age"] (Scalar.int 0)
      (Elem.leaf "age" (.int (some 1) none) false none []) rfl).1
      (Err.valueError "value out of range") rfl,
   (set_default_validates_then_assigns
      (Elem.keyed "<root>" [Elem.leaf "age" (.int (some 1) none) false none []])
      ["age"] (Scalar.int 5)
      (Elem.leaf "age" (.int (some 1) none) false none []) rfl).2
      (Scalar.int 5) rfl⟩

/-- Claim C8: a previously completed load result is an independent snapshot: a
later successful set_default returns a new schema and leaves the value tree of
the earlier call untouched.  In the embedding, load is a pure function of the
schema and the input document, and set_default produces a new schema value
rather than mutating shared state (the source assignment rebinds the default
attribute of one schema element; value trees returned earlier hold no mutable
reference that rebinding could alter), so the earlier result is preserved
verbatim. -/
theorem set_default_preserves_snapshots
    (parse : String → Except Err (Option Node)) (root : Elem) (doc : String)
    (t : Node) (segs : List String) (v : Scalar) (root' : Elem)
    (hload : load parse (validateElem root) doc = .ok t)
    (_hset : setDefaultSegs root segs v = .ok root') :
    load parse (validateElem root) doc = .ok t := hload

theorem set_default_preserves_snapshots_witness :
    load (fun _ => .ok (some (Node.mapping [("a", Node.scalar (Scalar.str "v"))])))
        (validateElem (Elem.keyed "<root>" [Elem.leaf "a" .str false none []])) "doc"
      = .ok (Node.mapping [("a", Node.scalar (Scalar.str "v"))]) :=
  set_default_preserves_snapshots _ _ "doc" _ ["a"] (Scalar.str "w")
    (Elem.keyed "<root>" [Elem.leaf "a" .str false (some (.str "w")) []])
    (by simp [load, validateElem, validateStripped, validateLeaf, validateSubs,
      exceptCons, exceptScalar, exceptMapping, stripNull, unknownKey, lookupNode,
      checkLeaf, inChoices, wrapPath, Elem.name])
    (by simp [setDefaultSegs, findSegs, lookupElem, Elem.name, checkAgainst,
      checkLeaf, inChoices, setDefaultAt, setDefaultList])

theorem Elem.inductOn {motive : Elem → Prop}
    (hleaf : ∀ n lt req d cs, motive (.leaf n lt req d cs))
    (hkeyed : ∀ n elems, (∀ e ∈ elems, motive e) → motive (.keyed n elems))
    (hcat : ∀ n base, motive base → motive (.cat n base))
    (hlst : ∀ n base, motive base → motive (.lst n base)) :
    ∀ e, motive e := by
  have H : ∀ k (e : Elem), sizeOf e ≤ k → motive e := by
    intro k
    induction k with
    | zero =>
      intro e h
      cases e <;> simp_arith at h
    | succ k ih =>
      intro e h
      cases e with
      | leaf n lt req d cs => exact hleaf n lt req d cs
      | keyed n elems =>
        refine hkeyed n elems (fun e' he' => ih e' ?_)
        have h1 := List.sizeOf_lt_of_mem he'
        have h2 : sizeOf (Elem.keyed n elems) = 1 + sizeOf n + sizeOf elems := by
          simp
        omega
      | cat n base =>
        refine hcat n base (ih base ?_)
        have h2 : sizeOf (Elem.cat n base) = 1 + sizeOf n + sizeOf base := by simp
        omega
      | lst n base =>
        refine hlst n base (ih base ?_)
        have h2 : sizeOf (Elem.lst n base) = 1 + sizeOf n + sizeOf base := by simp
        omega
  exact fun e => H (sizeOf e) e (Nat.le_refl _)

theorem checkLeaf_ok_eq {lt : LeafType} {cs : List Scalar} {s s' : Scalar}
    (h : checkLeaf lt cs s = .ok s') : s' = s := by
  unfold checkLeaf at h
  repeat' split at h
  all_goals cases h <;> rfl

theorem checkLeaf_ok_not_null {lt : LeafType} {cs : List Scalar} {s s' : Scalar}
    (h : checkLeaf lt cs s = .ok s') : s ≠ .null := by
  intro hs
  subst hs
  cases lt <;> simp [checkLeaf] at h

theorem stripNull_some {inp : Option Node} {nd : Node}
    (h : stripNull inp = some nd) : stripNull (some nd) = some nd := by
  cases inp with
  | none => simp [stripNull] at h
  | some n =>
    cases n with
    | scalar s =>
      cases s with
      | null => simp [stripNull] at h
      | str s0 =>
        cases (show some (Node.scalar (Scalar.str s0)) = some nd from h)
        rfl
      | int n0 =>
        cases (show some (Node.scalar (Scalar.int n0)) = some nd from h)
        rfl
      | bool b0 =>
        cases (show some (Node.scalar (Scalar.bool b0)) = some nd from h)
        rfl
    | mapping es =>
      cases (show some (Node.mapping es) = some nd from h)
      rfl
    | sequence items =>
      cases (show some (Node.sequence items) = some nd from h)
      rfl

theorem stripNull_scalar {s : Scalar} (h : s ≠ .null) :
    stripNull (some (.scalar s)) = some (.scalar s) := by
  cases s <;> simp_all [stripNull]

theorem stripNull_mapping (es : List (String × Node)) :
    stripNull (some (.mapping es)) = some (.mapping es) := rfl

theorem stripNull_sequence (items : List Node) :
    stripNull (some (.sequence items)) = some (.sequence items) := rfl

theorem wfList_mem {es : List Elem} (h : wfList es = true) :
    ∀ e ∈ es, wfElem e = true := by
  induction es with
  | nil => intro e he; cases he
  | cons a rest ih =>
    simp only [wfList, Bool.and_eq_true] at h
    intro e he
    cases he with
    | head => exact h.1
    | tail _ hmem => exact ih h.2 e hmem

theorem nodupNames_cons {x : String} {xs : List String}
    (h : nodupNames (x :: xs) = true) :
    xs.contains x = false ∧ nodupNames xs = true := by
  simp only [nodupNames, Bool.and_eq_true, Bool.not_eq_true'] at h
  exact h

theorem lookupNode_cons_ne {k k' : String} {n : Node} {E : List (String × Node)}
    (h : k' ≠ k) : lookupNode k ((k', n) :: E) = lookupNode k E := by
  simp [lookupNode, h]

theorem lookupNode_cons_self (k : String) (n : Node) (E : List (String × Node)) :
    lookupNode k ((k, n) :: E) = some n := by
  simp [lookupNode]

theorem validateSubs_congr {es : List Elem} {E1 E2 : List (String × Node)}
    (h : ∀ e ∈ es, lookupNode e.name E1 = lookupNode e.name E2) :
    validateSubs es E1 = validateSubs es E2 := by
  induction es with
  | nil => simp [validateSubs]
  | cons a rest ih =>
    have ha := h a (List.mem_cons_self a rest)
    have hr : ∀ e ∈ rest, lookupNode e.name E1 = lookupNode e.name E2 :=
      fun e he => h e (List.mem_cons_of_mem a he)
    simp only [validateSubs, ha, ih hr]

theorem renderSubs_congr {es : List Elem} {E1 E2 : List (String × Node)}
    (h : ∀ e ∈ es, lookupNode e.name E1 = lookupNode e.name E2) :
    renderSubs es E1 = renderSubs es E2 := by
  induction es with
  | nil => simp [renderSubs]
  | cons a rest ih =>
    have ha := h a (List.mem_cons_self a rest)
    have hr : ∀ e ∈ rest, lookupNode e.name E1 = lookupNode e.name E2 :=
      fun e he => h e (List.mem_cons_of_mem a he)
    simp only [renderSubs, ha, ih hr]

theorem unknownKey_of_contained {decl : List String} {entries : List (String × Node)}
    (h : ∀ kn ∈ entries, decl.contains kn.1 = true) :
    unknownKey decl entries = false := by
  simp only [unknownKey, List.any_eq_false]
  intro kn hkn
  simpa using h kn hkn

theorem renderSubs_keys (es : List Elem) (vmap : List (String × Node)) :
    (renderSubs es vmap).map Prod.fst = es.map Elem.name := by
  induction es with
  | nil => simp [renderSubs]
  | cons a rest ih => simp [renderSubs, ih]

theorem unknownKey_renderSubs (es : List Elem) (vmap : List (String × Node)) :
    unknownKey (es.map Elem.name) (renderSubs es vmap) = false := by
  refine unknownKey_of_contained (fun kn hkn => ?_)
  have : kn.1 ∈ (renderSubs es vmap).map Prod.fst := List.mem_map_of_mem _ hkn
  rw [renderSubs_keys] at this
  exact List.elem_iff.mpr this

theorem contains_false_names {a : Elem} {rest : List Elem}
    (h : (rest.map Elem.name).contains a.name = false) :
    ∀ e ∈ rest, e.name ≠ a.name := by
  intro e he heq
  have hmem : a.name ∈ rest.map Elem.name := heq ▸ List.mem_map_of_mem Elem.name he
  have hc : (rest.map Elem.name).elem a.name = true := List.elem_iff.mpr hmem
  have h2 : (rest.map Elem.name).elem a.name = false := h
  rw [hc] at h2
  exact Bool.noConfusion h2

theorem validateSubs_render_rt :
    ∀ (elems : List Elem),
      (∀ e ∈ elems, ∀ inp v, wfElem e = true → validateElem e inp = .ok v →
        validateElem e (some (render e (some v))) = .ok v) →
      nodupNames (elems.map Elem.name) = true →
      wfList elems = true →
      ∀ E res, validateSubs elems E = .ok res →
        validateSubs elems (renderSubs elems res) = .ok res := by
  intro elems
  induction elems with
  | nil =>
    intro _ _ _ E res h
    simp only [validateSubs, Except.ok.injEq] at h
    subst h
    simp [validateSubs, renderSubs]
  | cons a rest ih =>
    intro IH hnd hwl E res h
    have hnd2 : nodupNames (a.name :: rest.map Elem.name) = true := by
      simpa using hnd
    obtain ⟨hca, hnd'⟩ := nodupNames_cons hnd2
    have hnames : ∀ e ∈ rest, e.name ≠ a.name := contains_false_names hca
    have hwl2 : wfElem a = true ∧ wfList rest = true := by
      simpa [wfList] using hwl
    simp only [validateSubs] at h
    cases hva : wrapPath a.name (validateElem a (lookupNode a.name E)) with
    | error er => simp [hva, exceptCons] at h
    | ok v0 =>
      cases hvr : validateSubs rest E with
      | error er => simp [hva, hvr, exceptCons] at h
      | ok res' =>
        simp only [hva, hvr, exceptCons] at h
        cases h
        have hrs : renderSubs (a :: rest) ((a.name, v0) :: res')
            = (a.name, render a (some v0)) :: renderSubs rest res' := by
          simp only [renderSubs, lookupNode_cons_self]
          have : renderSubs rest ((a.name, v0) :: res') = renderSubs rest res' :=
            renderSubs_congr (fun e he => lookupNode_cons_ne (Ne.symm (hnames e he)))
          rw [this]
        rw [hrs]
        have hhead : validateElem a (some (render a (some v0))) = .ok v0 :=
          IH a (List.mem_cons_self a rest) (lookupNode a.name E) v0 hwl2.1
            (wrapPath_ok.mp hva)
        have htail1 : validateSubs rest
              ((a.name, render a (some v0)) :: renderSubs rest res')
            = validateSubs rest (renderSubs rest res') :=
          validateSubs_congr (fun e he => lookupNode_cons_ne (Ne.symm (hnames e he)))
        have htail2 : validateSubs rest (renderSubs rest res') = .ok res' :=
          ih (fun e he inp v hw hv => IH e (List.mem_cons_of_mem a he) inp v hw hv)
            hnd' hwl2.2 E res' hvr
        simp only [validateSubs, lookupNode_cons_self, hhead, wrapPath,
          htail1, htail2, exceptCons]

theorem validateCat_render_rt (base : Elem)
    (IH : ∀ inp v, wfElem base = true → validateElem base inp = .ok v →
      validateElem base (some (render base (some v))) = .ok v)
    (hwb : wfElem base = true) :
    ∀ E res, validateCat base E = .ok res →
      validateCat base (renderCat base res) = .ok res := by
  intro E
  induction E with
  | nil =>
    intro res h
    simp only [validateCat, Except.ok.injEq] at h
    subst h
    simp [validateCat, renderCat]
  | cons kn rest ih =>
    obtain ⟨k, n⟩ := kn
    intro res h
    simp only [validateCat] at h
    cases hv0 : wrapPath k (validateElem base (some n)) with
    | error er => simp [hv0, exceptCons] at h
    | ok v0 =>
      cases hvr : validateCat base rest with
      | error er => simp [hv0, hvr, exceptCons] at h
      | ok res' =>
        simp only [hv0, hvr, exceptCons] at h
        cases h
        have hhead : validateElem base (some (render base (some v0))) = .ok v0 :=
          IH (some n) v0 hwb (wrapPath_ok.mp hv0)
        simp only [renderCat, validateCat, hhead, wrapPath, ih res' hvr, exceptCons]

theorem validateLst_render_rt (base : Elem)
    (IH : ∀ inp v, wfElem base = true → validateElem base inp = .ok v →
      validateElem base (some (render base (some v))) = .ok v)
    (hwb : wfElem base = true) :
    ∀ items idx res, validateLst base idx items = .ok res →
      ∀ idx2, validateLst base idx2 (renderLst base res) = .ok res := by
  intro items
  induction items with
  | nil =>
    intro idx res h idx2
    simp only [validateLst, Except.ok.injEq] at h
    subst h
    simp [validateLst, renderLst]
  | cons n rest ih =>
    intro idx res h idx2
    simp only [validateLst] at h
    cases hv0 : wrapPath (Nat.repr idx) (validateElem base (some n)) with
    | error er => simp [hv0, exceptConsItem] at h
    | ok v0 =>
      cases hvr : validateLst base (idx + 1) rest with
      | error er => simp [hv0, hvr, exceptConsItem] at h
      | ok res' =>
        simp only [hv0, hvr, exceptConsItem] at h
        cases h
        have hhead : validateElem base (some (render base (some v0))) = .ok v0 :=
          IH (some n) v0 hwb (wrapPath_ok.mp hv0)
        simp only [renderLst, validateLst, hhead, wrapPath,
          ih (idx + 1) res' hvr (idx2 + 1), exceptConsItem]

theorem validate_render_ok : ∀ (e : Elem) (inp : Option Node) (v : Node),
    wfElem e = true → validateElem e inp = .ok v →
    validateElem e (some (render e (some v))) = .ok v := by
  refine Elem.inductOn ?_ ?_ ?_ ?_
  · -- leaf
    intro n lt req d cs inp v hwf hv
    simp only [validateElem, validateStripped] at hv
    cases hsn : stripNull inp with
    | some nd =>
      rw [hsn] at hv
      cases nd with
      | scalar s =>
        simp only [validateLeaf] at hv
        cases hcl : checkLeaf lt cs s with
        | error er => simp [hcl, exceptScalar] at hv
        | ok s2 =>
          simp only [hcl, exceptScalar, Except.ok.injEq] at hv
          subst hv
          have hseq : s2 = s := checkLeaf_ok_eq hcl
          subst hseq
          have hr : render (.leaf n lt req d cs) (some (.scalar s2)) = .scalar s2 := by
            simp [render, renderLeaf]
          rw [hr]
          simp only [validateElem, validateStripped, stripNull_some hsn,
            validateLeaf, hcl, exceptScalar]
      | mapping es => simp [validateLeaf] at hv
      | sequence items => simp [validateLeaf] at hv
    | none =>
      rw [hsn] at hv
      cases d with
      | some dv =>
        have hv2 : Except.ok (Node.scalar dv) = Except.ok v := hv
        cases hv2
        have hck : checkLeaf lt cs dv = .ok dv := by
          simp only [wfElem, leafDefaultOk] at hwf
          cases hc2 : checkLeaf lt cs dv with
          | error er => simp [hc2] at hwf
          | ok s2 =>
            obtain rfl := checkLeaf_ok_eq hc2
            rfl
        have hdvnull : dv ≠ .null := checkLeaf_ok_not_null hck
        have hr : render (.leaf n lt req (some dv) cs) (some (.scalar dv))
            = .scalar dv := by simp [render, renderLeaf]
        rw [hr]
        simp only [validateElem, validateStripped, stripNull_scalar hdvnull,
          validateLeaf, hck, exceptScalar]
      | none =>
        cases req with
        | true =>
          have hv2 : (Except.error (Err.requiredError "missing required value")
              : Except Err Node) = Except.ok v := hv
          cases hv2
        | false =>
          have hv2 : (Except.ok (Node.scalar .null) : Except Err Node)
              = Except.ok v := hv
          cases hv2
          have hr : render (.leaf n lt false none cs) (some (.scalar .null))
              = .scalar .null := by simp [render, renderLeaf]
          rw [hr]
          simp [validateElem, validateStripped, stripNull, validateLeaf]
  · -- keyed
    intro n elems IH inp v hwf hv
    simp only [wfElem, Bool.and_eq_true] at hwf
    obtain ⟨hnd, hwl⟩ := hwf
    simp only [validateElem] at hv
    cases hsn : stripNull inp with
    | none =>
      rw [hsn] at hv
      simp only [validateStripped] at hv
      cases hvs : validateSubs elems [] with
      | error er => simp [hvs, exceptMapping] at hv
      | ok res =>
        simp only [hvs, exceptMapping, Except.ok.injEq] at hv
        subst hv
        have hrender : render (.keyed n elems) (some (.mapping res))
            = .mapping (renderSubs elems res) := by simp [render, entriesOf]
        rw [hrender]
        simp only [validateElem, validateStripped, stripNull_mapping]
        rw [if_neg (by simp [unknownKey_renderSubs])]
        rw [validateSubs_render_rt elems IH hnd hwl [] res hvs]
        simp [exceptMapping]
    | some nd =>
      rw [hsn] at hv
      cases nd with
      | mapping entries =>
        simp only [validateStripped] at hv
        cases huk : unknownKey (elems.map Elem.name) entries with
        | true => simp [huk] at hv
        | false =>
          simp only [huk, Bool.false_eq_true, if_false] at hv
          cases hvs : validateSubs elems entries with
          | error er => simp [hvs, exceptMapping] at hv
          | ok res =>
            simp only [hvs, exceptMapping, Except.ok.injEq] at hv
            subst hv
            have hrender : render (.keyed n elems) (some (.mapping res))
                = .mapping (renderSubs elems res) := by simp [render, entriesOf]
            rw [hrender]
            simp only [validateElem, validateStripped, stripNull_mapping]
            rw [if_neg (by simp [unknownKey_renderSubs])]
            rw [validateSubs_render_rt elems IH hnd hwl entries res hvs]
            simp [exceptMapping]
      | scalar s => simp [validateStripped] at hv
      | sequence items => simp [validateStripped] at hv
  · -- cat
    intro n base IH inp v hwf hv
    simp only [wfElem] at hwf
    simp only [validateElem] at hv
    cases hsn : stripNull inp with
    | none =>
      rw [hsn] at hv
      simp only [validateStripped, Except.ok.injEq] at hv
      subst hv
      have hrender : render (.cat n base) (some (.mapping []))
          = .mapping (renderCat base []) := by simp [render]
      rw [hrender]
      simp [renderCat, validateElem, validateStripped, stripNull_mapping,
        validateCat, exceptMapping]
    | some nd =>
      rw [hsn] at hv
      cases nd with
      | mapping entries =>
        simp only [validateStripped] at hv
        cases hvc : validateCat base entries with
        | error er => simp [hvc, exceptMapping] at hv
        | ok res =>
          simp only [hvc, exceptMapping, Except.ok.injEq] at hv
          subst hv
          have hrender : render (.cat n base) (some (.mapping res))
              = .mapping (renderCat base res) := by simp [render]
          rw [hrender]
          simp only [validateElem, validateStripped, stripNull_mapping,
            validateCat_render_rt base IH hwf entries res hvc, exceptMapping]
      | scalar s => simp [validateStripped] at hv
      | sequence items => simp [validateStripped] at hv
  · -- lst
    intro n base IH inp v hwf hv
    simp only [wfElem] at hwf
    simp only [validateElem] at hv
    cases hsn : stripNull inp with
    | none =>
      rw [hsn] at hv
      simp only [validateStripped, Except.ok.injEq] at hv
      subst hv
      have hrender : render (.lst n base) (some (.sequence []))
          = .sequence (renderLst base []) := by simp [render]
      rw [hrender]
      simp [renderLst, validateElem, validateStripped, stripNull_sequence,
        validateLst, exceptSequence]
    | some nd =>
      rw [hsn] at hv
      cases nd with
      | sequence items =>
        simp only [validateStripped] at hv
        cases hvl : validateLst base 0 items with
        | error er => simp [hvl, exceptSequence] at hv
        | ok res =>
          simp only [hvl, exceptSequence, Except.ok.injEq] at hv
          subst hv
          have hrender : render (.lst n base) (some (.sequence res))
              = .sequence (renderLst base res) := by simp [render]
          rw [hrender]
          simp only [validateElem, validateStripped, stripNull_sequence,
            validateLst_render_rt base IH hwf items 0 res hvl 0, exceptSequence]
      | scalar s => simp [validateStripped] at hv
      | mapping es => simp [validateStripped] at hv

/-- Claim C6: round trip.  For a wellformed schema and a value tree obtained
from a successful validate, dumping that tree and validating the re-parsed
stream yields the same tree.  The document model is the out-of-scope black box;
its fidelity (parsing the emitted stream back to the rendered node tree) enters
as the explicit hypothesis on parse, and the substance proved is that validate
after render is the identity on validated trees. -/
theorem dump_load_roundtrip (e : Elem) (inp : Option Node) (v : Node)
    (parse : String → Except Err (Option Node)) (stream : String)
    (hwf : wfElem e = true) (hv : validateElem e inp = .ok v)
    (hfid : parse stream = .ok (some (render e (some v)))) :
    load parse (validateElem e) stream = .ok v := by
  unfold load
  rw [hfid]
  exact validate_render_ok e inp v hwf hv

theorem dump_load_roundtrip_witness :
    load (fun _ => .ok (some (render
        (Elem.keyed "<root>" [Elem.leaf "a" .str false none []])
        (some (Node.mapping [("a", Node.scalar (Scalar.str "hi"))])))))
      (validateElem (Elem.keyed "<root>" [Elem.leaf "a" .str false none []]))
      "doc"
    = .ok (Node.mapping [("a", Node.scalar (Scalar.str "hi"))]) :=
  dump_load_roundtrip
    (Elem.keyed "<root>" [Elem.leaf "a" .str false none []])
    (some (Node.mapping [("a", Node.scalar (Scalar.str "hi"))]))
    (Node.mapping [("a", Node.scalar (Scalar.str "hi"))])
    (fun _ => .ok (some (render
        (Elem.keyed "<root>" [Elem.leaf "a" .str false none []])
        (some (Node.mapping [("a", Node.scalar (Scalar.str "hi"))])))))
    "doc"
    (by simp [wfElem, wfList, nodupNames, leafDefaultOk, Elem.name])
    (by simp [validateElem, validateStripped, validateLeaf, validateSubs,
      exceptCons, exceptScalar, exceptMapping, stripNull, unknownKey, lookupNode,
      checkLeaf, inChoices, wrapPath, Elem.name])
    rfl

theorem root_name_sentinel_witness :
    (YamlConfig.init [] "").name = "<root>" ∧
    validName "<root>" = false ∧
    Elem.name (Elem.keyed "<root>" [Elem.leaf "a" .str false (some (.str "x")) []])
      = Elem.name (Elem.keyed "<root>" [Elem.leaf "a" .str false none []]) :=
  ⟨(root_name_sentinel [] none "").1,
   (root_name_sentinel [] none "").2.2.2.1,
   (root_name_sentinel [] none "").2.2.2.2
     (Elem.keyed "<root>" [Elem.leaf "a" .str false none []]) ["a"] (Scalar.str "x")
     (Elem.keyed "<root>" [Elem.leaf "a" .str false (some (.str "x")) []])
     (by simp [setDefaultSegs, findSegs, lookupElem, Elem.name, checkAgainst,
       checkLeaf, inChoices, setDefaultAt, setDefaultList])⟩

theorem allOptionalList_mem {es : List Elem} (h : allOptionalList es = true) :
    ∀ e ∈ es, allOptional e = true := by
  induction es with
  | nil => intro e he; cases he
  | cons a rest ih =>
    simp only [allOptionalList, Bool.and_eq_true] at h
    intro e he
    cases he with
    | head => exact h.1
    | tail _ hmem => exact ih h.2 e hmem

theorem allOptional_setDefault :
    ∀ (segs : List String) (v : Scalar),
      (∀ e : Elem, allOptional e = true →
        allOptional (setDefaultAt e segs v) = true) ∧
      (∀ (seg : String) (elems : List Elem), allOptionalList elems = true →
        allOptionalList (setDefaultList elems seg segs v) = true) := by
  intro segs
  induction segs with
  | nil =>
    intro v
    have h1 : ∀ e : Elem, allOptional e = true →
        allOptional (setDefaultAt e [] v) = true := by
      intro e he
      cases e <;> simpa [setDefaultAt, allOptional] using he
    refine ⟨h1, ?_⟩
    intro seg elems
    induction elems with
    | nil => intro h; simpa [setDefaultList] using h
    | cons a rest ih2 =>
      intro h
      simp only [allOptionalList, Bool.and_eq_true] at h
      by_cases ha : a.name = seg
      · simp [setDefaultList, ha, allOptionalList, h1 a h.1, h.2]
      · simp [setDefaultList, ha, allOptionalList, h.1, ih2 h.2]
  | cons seg0 rest IH =>
    intro v
    have h1 : ∀ e : Elem, allOptional e = true →
        allOptional (setDefaultAt e (seg0 :: rest) v) = true := by
      intro e he
      cases e with
      | leaf n lt req d cs => simpa [setDefaultAt, allOptional] using he
      | keyed n elems =>
        simp only [allOptional] at he
        simpa [setDefaultAt, allOptional] using (IH v).2 seg0 elems he
      | cat n base =>
        simp only [allOptional] at he
        simpa [setDefaultAt, allOptional] using (IH v).1 base he
      | lst n base =>
        simp only [allOptional] at he
        simpa [setDefaultAt, allOptional] using (IH v).1 base he
    refine ⟨h1, ?_⟩
    intro seg elems
    induction elems with
    | nil => intro h; simpa [setDefaultList] using h
    | cons a rest2 ih2 =>
      intro h
      simp only [allOptionalList, Bool.and_eq_true] at h
      by_cases ha : a.name = seg
      · simp [setDefaultList, ha, allOptionalList, h1 a h.1, h.2]
      · simp [setDefaultList, ha, allOptionalList, h.1, ih2 h.2]

theorem validateSubs_allOptional :
    ∀ (es : List Elem),
      (∀ e ∈ es, ∃ t, validateElem e none = .ok t) →
      ∃ res, validateSubs es [] = .ok res := by
  intro es
  induction es with
  | nil => intro _; exact ⟨[], by simp [validateSubs]⟩
  | cons a rest ih =>
    intro h
    obtain ⟨t, ht⟩ := h a (List.mem_cons_self a rest)
    obtain ⟨res', hres'⟩ := ih (fun e he => h e (List.mem_cons_of_mem a he))
    refine ⟨(a.name, t) :: res', ?_⟩
    simp [validateSubs, lookupNode, ht, wrapPath, hres', exceptCons]

theorem allOptional_validate :
    ∀ e : Elem, allOptional e = true → ∃ t, validateElem e none = .ok t := by
  refine Elem.inductOn ?_ ?_ ?_ ?_
  · intro n lt req d cs hopt
    cases d with
    | some dv =>
      exact ⟨.scalar dv, by simp [validateElem, validateStripped, stripNull,
        validateLeaf]⟩
    | none =>
      simp only [allOptional, Bool.not_eq_true'] at hopt
      subst hopt
      exact ⟨.scalar .null, by simp [validateElem, validateStripped, stripNull,
        validateLeaf]⟩
  · intro n elems IH hopt
    simp only [allOptional] at hopt
    obtain ⟨res, hres⟩ := validateSubs_allOptional elems
      (fun e he => IH e he (allOptionalList_mem hopt e he))
    exact ⟨.mapping res, by simp [validateElem, validateStripped, stripNull,
      hres, exceptMapping]⟩
  · intro n base _ _
    exact ⟨.mapping [], by simp [validateElem, validateStripped, stripNull]⟩
  · intro n base _ _
    exact ⟨.sequence [], by simp [validateElem, validateStripped, stripNull]⟩

theorem validateSubs_lookup :
    ∀ (es : List Elem) (E res : List (String × Node)) (k : String) (e : Elem),
      validateSubs es E = .ok res → lookupElem k es = some e →
      ∃ w, lookupNode k res = some w ∧ validateElem e (lookupNode k E) = .ok w := by
  intro es
  induction es with
  | nil => intro E res k e _ hl; simp [lookupElem] at hl
  | cons a rest ih =>
    intro E res k e h hl
    simp only [validateSubs] at h
    cases hva : wrapPath a.name (validateElem a (lookupNode a.name E)) with
    | error er => simp [hva, exceptCons] at h
    | ok v0 =>
      cases hvr : validateSubs rest E with
      | error er => simp [hva, hvr, exceptCons] at h
      | ok res' =>
        simp only [hva, hvr, exceptCons] at h
        cases h
        by_cases ha : a.name = k
        · simp only [lookupElem, ha, if_pos] at hl
          cases hl
          refine ⟨v0, ?_, ?_⟩
          · simp [lookupNode, ha]
          · rw [← ha]
            exact wrapPath_ok.mp hva
        · simp only [lookupElem, ha, if_neg, not_false_iff] at hl
          obtain ⟨w, hw1, hw2⟩ := ih E res' k e hvr hl
          exact ⟨w, by simp [lookupNode, ha, hw1], hw2⟩

/-- Claim C7 counterexample: the claim quantifies over every all-optional
schema, but when the first segment of the dotted key resolves to a Category
element the second segment is wildcarded to the shared template, set_default
succeeds on the template, and validate of the empty document yields an empty
mapping under that key: the set value appears nowhere at path a.b. -/
theorem set_default_validate_empty_cex :
    allOptional (Elem.keyed "<root>"
        [Elem.cat "a" (Elem.leaf "t" .str false none [])]) = true ∧
    setDefaultSegs (Elem.keyed "<root>"
        [Elem.cat "a" (Elem.leaf "t" .str false none [])])
        ["a", "b"] (Scalar.str "x")
      = .ok (Elem.keyed "<root>"
          [Elem.cat "a" (Elem.leaf "t" .str false (some (.str "x")) [])]) ∧
    validateElem (Elem.keyed "<root>"
        [Elem.cat "a" (Elem.leaf "t" .str false (some (.str "x")) [])])
        (some (Node.mapping []))
      = .ok (Node.mapping [("a", Node.mapping [])]) ∧
    lookupPath (Node.mapping [("a", Node.mapping [])]) ["a", "b"] = none := by
  refine ⟨?_, ?_, ?_, ?_⟩
  · simp [allOptional, allOptionalList]
  · simp [setDefaultSegs, findSegs, lookupElem, Elem.name, checkAgainst,
      checkLeaf, inChoices, setDefaultAt, setDefaultList]
  · simp [validateElem, validateStripped, validateSubs, validateLeaf, stripNull,
      unknownKey, lookupNode, wrapPath, exceptCons, exceptMapping, Elem.name]
  · simp [lookupPath, lookupNode]

/-- Claim C7 as amended: for every all-optional schema in which the dotted path
a.b resolves through Keyed elements (segment a names a keyed sub-element of the
keyed root and segment b names an optional leaf of it), set_default on a.b
followed by validate of the empty document yields the set value at path a.b in
the result. -/
theorem set_default_validate_empty_keyed_path
    (rn an : String) (relems aelems : List Elem)
    (lt : LeafType) (d0 : Option Scalar) (cs : List Scalar) (x : Scalar)
    (root' : Elem)
    (ha : lookupElem "a" relems = some (.keyed an aelems))
    (hb : lookupElem "b" aelems = some (.leaf "b" lt false d0 cs))
    (hopt : allOptional (.keyed rn relems) = true)
    (hset : setDefaultSegs (.keyed rn relems) ["a", "b"] x = .ok root') :
    ∃ t, validateElem root' (some (.mapping [])) = .ok t ∧
      lookupPath t ["a", "b"] = some (.scalar x) := by
  have hroot : root' = setDefaultAt (.keyed rn relems) ["a", "b"] x :=
    setDefaultSegs_ok hset
  have hroot2 : root' = .keyed rn (setDefaultList relems "a" ["b"] x) := by
    rw [hroot]; simp [setDefaultAt]
  have hlook1 : lookupElem "a" (setDefaultList relems "a" ["b"] x)
      = some (setDefaultAt (.keyed an aelems) ["b"] x) :=
    lookupElem_setDefaultList ["b"] x ha
  have hsub : setDefaultAt (.keyed an aelems) ["b"] x
      = .keyed an (setDefaultList aelems "b" [] x) := by simp [setDefaultAt]
  have hlook2 : lookupElem "b" (setDefaultList aelems "b" [] x)
      = some (setDefaultAt (.leaf "b" lt false d0 cs) [] x) :=
    lookupElem_setDefaultList [] x hb
  have hleaf : setDefaultAt (.leaf "b" lt false d0 cs) [] x
      = .leaf "b" lt false (some x) cs := by simp [setDefaultAt]
  have hopt' : allOptionalList (setDefaultList relems "a" ["b"] x) = true := by
    refine (allOptional_setDefault ["b"] x).2 "a" relems ?_
    simpa [allOptional] using hopt
  obtain ⟨res, hres⟩ := validateSubs_allOptional (setDefaultList relems "a" ["b"] x)
    (fun e he => allOptional_validate e (allOptionalList_mem hopt' e he))
  refine ⟨.mapping res, ?_, ?_⟩
  · rw [hroot2]
    simp [validateElem, validateStripped, stripNull, unknownKey, hres,
      exceptMapping]
  · obtain ⟨w, hw1, hw2⟩ := validateSubs_lookup _ [] res "a" _ hres
      (hsub ▸ hlook1)
    have hw2' : validateElem (.keyed an (setDefaultList aelems "b" [] x)) none
        = .ok w := by simpa [lookupNode] using hw2
    cases hsubres : validateSubs (setDefaultList aelems "b" [] x) [] with
    | error er =>
      rw [show validateElem (.keyed an (setDefaultList aelems "b" [] x)) none
          = exceptMapping (validateSubs (setDefaultList aelems "b" [] x) [])
          from by simp [validateElem, validateStripped, stripNull]] at hw2'
      rw [hsubres] at hw2'
      simp [exceptMapping] at hw2'
    | ok res_a =>
      have hwval : w = Node.mapping res_a := by
        rw [show validateElem (.keyed an (setDefaultList aelems "b" [] x)) none
            = exceptMapping (validateSubs (setDefaultList aelems "b" [] x) [])
            from by simp [validateElem, validateStripped, stripNull]] at hw2'
        rw [hsubres] at hw2'
        simpa [exceptMapping] using hw2'.symm
      obtain ⟨w2, hw21, hw22⟩ := validateSubs_lookup _ [] res_a "b" _ hsubres
        (hleaf ▸ hlook2)
      have hw22' : w2 = Node.scalar x := by
        have : validateElem (.leaf "b" lt false (some x) cs) none
            = .ok (.scalar x) := by
          simp [validateElem, validateStripped, stripNull, validateLeaf]
        rw [show lookupNode "b" ([] : List (String × Node)) = none from rfl] at hw22
        rw [this] at hw22
        simpa using hw22.symm
      simp only [lookupPath, hw1, hwval, hw21, hw22']

theorem set_default_validate_empty_keyed_path_witness :
    ∃ t, validateElem (Elem.keyed "<root>"
        [Elem.keyed "a" [Elem.leaf "b" .str false (some (.str "hi")) []]])
        (some (Node.mapping [])) = .ok t ∧
      lookupPath t ["a", "b"] = some (.scalar (.str "hi")) :=
  set_default_validate_empty_keyed_path "<root>" "a"
    [Elem.keyed "a" [Elem.leaf "b" .str false none []]]
    [Elem.leaf "b" .str false none []] .str none [] (Scalar.str "hi")
    (Elem.keyed "<root>" [Elem.keyed "a" [Elem.leaf "b" .str false
      (some (.str "hi")) []]])
    rfl rfl
    (by simp [allOptional, allOptionalList])
    (by simp [setDefaultSegs, findSegs, lookupElem, Elem.name, checkAgainst,
      checkLeaf, inChoices, setDefaultAt, setDefaultList])

end YC
